import Mathlib

/-!
Shallow embedding of the repeater registry export pipeline of
`scripts/update.py`: the CHIRP (generic FM) exporter `format_df_for_chirp`,
the Anytone D878 (dual-mode analog/DMR) exporter `format_df_for_d878`,
the map-pin clustering part of `write_map_md`, and the record
construction and merge helpers `repeater_from_args`,
`repeater_from_repeaterbook` and the dict merge in `generate_repeater_df`.

Machine floats are modelled as exact rationals.  Python `float(...)`
parsing is modelled on the plain decimal subset (optional sign, digit
run, optional dot and fractional digits), which covers every value the
registry format produces.  Fallible operations (Python exceptions)
return `Option`, with `none` standing for a raised exception.
-/

/-- Addition on ℚ written through `mkRat`, so that concrete runs of the
embedding reduce inside the kernel.  `ratAdd_eq` shows it is `+`. -/
def ratAdd (a b : ℚ) : ℚ :=
  mkRat (a.num * b.den + b.num * a.den) (a.den * b.den)

/-- Subtraction on ℚ through `mkRat`; `ratSub_eq` shows it is `-`. -/
def ratSub (a b : ℚ) : ℚ :=
  mkRat (a.num * b.den - b.num * a.den) (a.den * b.den)

/-- Multiplication on ℚ through `mkRat`; `ratMul_eq` shows it is `*`. -/
def ratMul (a b : ℚ) : ℚ :=
  mkRat (a.num * b.num) (a.den * b.den)

/-- Division on ℚ through `Rat.divInt`; `ratDiv_eq` shows it is `/`. -/
def ratDiv (a b : ℚ) : ℚ :=
  Rat.divInt (a.num * b.den) (a.den * b.num)

theorem ratAdd_eq (a b : ℚ) : ratAdd a b = a + b :=
  (Rat.add_def' a b).symm

theorem ratSub_eq (a b : ℚ) : ratSub a b = a - b :=
  (Rat.sub_def' a b).symm

theorem ratMul_eq (a b : ℚ) : ratMul a b = a * b := by
  rw [ratMul, Rat.mkRat_eq_divInt]
  push_cast
  rw [← Rat.divInt_mul_divInt', Rat.num_divInt_den, Rat.num_divInt_den]

theorem ratDiv_eq (a b : ℚ) : ratDiv a b = a / b :=
  (Rat.div_def' a b).symm

/-- Python slice `s[a:b]` on a string (as in `tone[1:4]`); lenient when
the string is shorter than the requested slice, exactly like Python. -/
def pySlice (s : String) (a b : Nat) : String :=
  String.mk ((s.toList.drop a).take (b - a))

/-- Python slice `s[a:]`. -/
def pyDropFrom (s : String) (a : Nat) : String :=
  String.mk (s.toList.drop a)

/-- Pandas `.str[0]`: the first character, as a string. -/
def pyFirst (s : String) : String :=
  String.mk (s.toList.take 1)

/-- Python `s.startswith("D")`. -/
def startsWithD (s : String) : Bool :=
  match s.toList with
  | 'D' :: _ => true
  | _ => false

/-- Numeric value of a digit run. -/
def digitsToNat (cs : List Char) : Nat :=
  cs.foldl (fun a c => a * 10 + (c.toNat - 48)) 0

/-- Python float parsing, restricted to plain decimals: an optional
integer digit run, then optionally a dot and a fractional digit run, at
least one digit overall.  Exponent and infinity forms never occur in the
registry and are not modelled. -/
def parseUnsigned (cs : List Char) : Option ℚ :=
  let ip := cs.takeWhile Char.isDigit
  let rest := cs.dropWhile Char.isDigit
  match rest with
  | [] => if ip.isEmpty then none else some (mkRat (digitsToNat ip) 1)
  | '.' :: fp =>
      if fp.all Char.isDigit && !(ip.isEmpty && fp.isEmpty) then
        some (mkRat (digitsToNat ip * 10 ^ fp.length + digitsToNat fp) (10 ^ fp.length))
      else none
  | _ => none

/-- Python `float(s)` on the plain decimal subset, with optional sign. -/
def parseDec (s : String) : Option ℚ :=
  match s.toList with
  | '+' :: cs => parseUnsigned cs
  | '-' :: cs => (parseUnsigned cs).map Neg.neg
  | cs => parseUnsigned cs

/-- Floor of a rational as an integer (denominators are positive). -/
def ratFloor (q : ℚ) : ℤ :=
  Int.fdiv q.num q.den

/-- Fixed-point rendering of a nonnegative rational with `n` decimal
digits, rounding half up.  The registry values rendered through this are
exact at the rendered precision, where Python float formatting agrees. -/
def fmtFixedNN (q : ℚ) (n : Nat) : String :=
  let m := (ratFloor (ratAdd (ratMul q (mkRat (10 ^ n) 1)) (mkRat 1 2))).toNat
  let base := 10 ^ n
  let frac := Nat.repr (m % base)
  Nat.repr (m / base) ++ "." ++
    String.mk (List.replicate (n - frac.length) '0') ++ frac

/-- Python fixed-point float formatting with `n` decimal digits. -/
def fmtFixed (q : ℚ) (n : Nat) : String :=
  if q < 0 then "-" ++ fmtFixedNN (-q) n else fmtFixedNN q n

/-- Round to the nearest integer, ties to even (numpy rounding). -/
def roundHalfEven (x : ℚ) : ℤ :=
  let f := ratFloor x
  let r := ratSub x (mkRat f 1)
  if r < mkRat 1 2 then f
  else if mkRat 1 2 < r then f + 1
  else if f % 2 = 0 then f else f + 1

/-- `DataFrame.round(3)` on one value. -/
def round3 (q : ℚ) : ℚ :=
  mkRat (roundHalfEven (ratMul q (mkRat 1000 1))) 1000

/-- One registry row, restricted to the columns the exporters and the
map builder read.  `coordinates` is optional exactly as in the registry;
the descriptive columns (group name, location, website, ...) are never
read by the exported tables and are omitted. -/
structure Repeater where
  callsign : String
  mode : String
  output : String
  offset : String
  tone : String
  coordinates : Option (ℚ × ℚ)
deriving DecidableEq

/-- Option-valued map.  Models a pandas/numpy column-wise operation that
raises on the first bad element: one failure fails the whole column. -/
def mapOpt (f : α → Option β) : List α → Option (List β)
  | [] => some []
  | x :: xs =>
      match f x, mapOpt f xs with
      | some y, some ys => some (y :: ys)
      | _, _ => none

/-- Mode filter of `format_df_for_chirp`: only FM repeaters. -/
def chirpKeep (r : Repeater) : Bool :=
  r.mode == "FM" || r.mode == "NBFM" || r.mode == "Fusion"

/-- Mode renaming of `format_df_for_chirp`: NBFM to NFM, Fusion to FM. -/
def chirpMode (m : String) : String :=
  if m == "NBFM" then "NFM" else if m == "Fusion" then "FM" else m

/-- One row of the CHIRP table, all columns of the exported CSV.  The
five trailing columns are emitted as null by the source. -/
structure ChirpRow where
  location : Nat
  name : String
  frequency : String
  duplex : String
  offset : String
  tone : String
  rToneFreq : String
  cToneFreq : String
  dtcsCode : String
  dtcsPolarity : String
  mode : String
  tStep : String
  comment : String
  skip : Option String
  urcall : Option String
  rpt1call : Option String
  rpt2call : Option String
  dvcode : Option String
deriving DecidableEq

/-- Per-row part of `format_df_for_chirp` on a mode-kept record: the
offset split into sign and 6-decimal magnitude, the renamed columns, the
CHIRP constants, and the DCS fix-up on D-prefixed tones.  Fails (Python
`float` raising) when the sign-stripped offset does not parse. -/
def mkChirpRow (i : Nat) (r : Repeater) : Option ChirpRow :=
  match parseDec (pyDropFrom r.offset 1) with
  | none => none
  | some mag =>
      let isDcs := startsWithD r.tone
      some {
        location := i
        name := r.callsign
        frequency := r.output
        duplex := pyFirst r.offset
        offset := fmtFixed mag 6
        tone := if isDcs then "DTCS" else "Tone"
        rToneFreq := if isDcs then "88.5" else r.tone
        cToneFreq := "88.5"
        dtcsCode := if isDcs then pySlice r.tone 1 4 else "023"
        dtcsPolarity := "NN"
        mode := chirpMode r.mode
        tStep := "5.00"
        comment := r.callsign ++ " - " ++ r.output
        skip := none
        urcall := none
        rpt1call := none
        rpt2call := none
        dvcode := none }

/-- The kept records turned into rows numbered from `i` upward. -/
def chirpRows : Nat → List Repeater → Option (List ChirpRow)
  | _, [] => some []
  | i, r :: rs =>
      match mkChirpRow i r, chirpRows (i + 1) rs with
      | some row, some rows => some (row :: rows)
      | _, _ => none

/-- `format_df_for_chirp`: filter to the FM modes, then build the rows
with the 1-based `Location` index in registry order. -/
def format_df_for_chirp (df : List Repeater) : Option (List ChirpRow) :=
  chirpRows 1 (df.filter chirpKeep)

/-- The four named captures of the DMR tone pattern
`CC(?P<color>\d+)\/TS(?P<slot>[12]) (?P<contact>\S+) TG\/(?P<id>\d+)`. -/
structure DmrCaps where
  color : String
  slot : String
  contact : String
  id : String
deriving DecidableEq

/-- Match a literal character sequence, returning the remainder. -/
def splitLit : List Char → List Char → Option (List Char)
  | [], cs => some cs
  | _ :: _, [] => none
  | l :: ls, c :: cs => if c = l then splitLit ls cs else none

/-- Attempt the DMR tone pattern at the head of the character list:
literal CC, a digit run (color), literal /TS, 1 or 2 (slot), a space, a
nonblank run (contact), a space, literal TG/, a digit run (talkgroup
id).  Every quantified class of the pattern is followed by a character
outside that class, so greedy maximal munch coincides with the regular
expression's backtracking semantics. -/
def dmrMatchAt (cs0 : List Char) : Option DmrCaps :=
  match splitLit ['C', 'C'] cs0 with
  | none => none
  | some cs1 =>
    let color := cs1.takeWhile Char.isDigit
    let cs2 := cs1.dropWhile Char.isDigit
    if color.isEmpty then none else
    match splitLit ['/', 'T', 'S'] cs2 with
    | none => none
    | some cs3 =>
      match cs3 with
      | [] => none
      | s :: cs4 =>
        if s = '1' || s = '2' then
          match cs4 with
          | ' ' :: cs5 =>
            let contact := cs5.takeWhile (fun c => !c.isWhitespace)
            let cs6 := cs5.dropWhile (fun c => !c.isWhitespace)
            if contact.isEmpty then none else
            match splitLit [' ', 'T', 'G', '/'] cs6 with
            | none => none
            | some cs7 =>
              let tg := cs7.takeWhile Char.isDigit
              if tg.isEmpty then none else
              some ⟨String.mk color, String.mk [s], String.mk contact, String.mk tg⟩
          | _ => none
        else none

/-- `re.search` semantics, as used by pandas `str.extract`: try the
pattern at every start position, leftmost match wins. -/
def dmrSearch : List Char → Option DmrCaps
  | [] => none
  | c :: cs =>
      match dmrMatchAt (c :: cs) with
      | some caps => some caps
      | none => dmrSearch cs

/-- The `str.extract` of the DMR tone pattern in `format_df_for_d878`.
`none` models the all-NaN capture row of an unmatched tone. -/
def extractDMR (s : String) : Option DmrCaps :=
  dmrSearch s.toList

/-- Mode filter of `format_df_for_d878`: FM, NBFM, DMR and Fusion. -/
def d878Keep (r : Repeater) : Bool :=
  r.mode == "FM" || r.mode == "NBFM" || r.mode == "DMR" || r.mode == "Fusion"

/-- A mode-kept record with its numerically parsed frequency columns. -/
structure ParsedRec where
  src : Repeater
  freq : ℚ
  off : ℚ
deriving DecidableEq

/-- One record with both frequency columns parsed; `none` when either
value fails to parse. -/
def parseRec (r : Repeater) : Option ParsedRec :=
  match parseDec r.output, parseDec r.offset with
  | some f, some o => some ⟨r, f, o⟩
  | _, _ => none

/-- `pd.to_numeric` applied to the Output and Offset columns of the
mode-kept records; raises (`none`) if any value fails to parse. -/
def parseNumeric (rs : List Repeater) : Option (List ParsedRec) :=
  mapOpt parseRec rs

/-- Strictly inside the 2m band. -/
def in2m (p : ParsedRec) : Bool :=
  decide (144 < p.freq) && decide (p.freq < 148)

/-- Strictly inside the 70cm band. -/
def in70cm (p : ParsedRec) : Bool :=
  decide (430 < p.freq) && decide (p.freq < 450)

/-- One row of the D878 table, all columns of the exported CSV. -/
structure D878Row where
  no : Nat
  channelName : String
  receiveFreq : ℚ
  transmitFreq : ℚ
  channelType : String
  dmrMode : String
  bandWidth : String
  ctcssDcsEncode : Option String
  contact : Option String
  contactTgId : Option String
  colorCode : Option String
  slot : Option String
  scanList : String
deriving DecidableEq

/-- Per-row part of `format_df_for_d878` on a band-kept parsed record:
the rounded frequencies, the analog/digital switches, the DCS rendering
with the DMR override to null, and the DMR captures (all absent when the
tone does not match the pattern). -/
def mkD878Row (i : Nat) (p : ParsedRec) : D878Row :=
  let r := p.src
  let isDmr := r.mode == "DMR"
  let isDcs := startsWithD r.tone
  let isWide := r.mode == "FM" || r.mode == "Fusion"
  let caps := extractDMR r.tone
  { no := i
    channelName := r.callsign
    receiveFreq := round3 p.freq
    transmitFreq := round3 (ratAdd p.freq p.off)
    channelType := if isDmr then "D-Digital" else "A-Analog"
    dmrMode := if isDmr then "1" else "0"
    bandWidth := if isWide then "25K" else "12.5K"
    ctcssDcsEncode :=
      if isDmr then none
      else if isDcs then some ("D" ++ pySlice r.tone 1 4 ++ "N")
      else some r.tone
    contact := if isDmr then caps.map DmrCaps.contact else none
    contactTgId := if isDmr then caps.map DmrCaps.id else none
    colorCode := if isDmr then caps.map DmrCaps.color else some "1"
    slot := if isDmr then caps.map DmrCaps.slot else none
    scanList := "Roundabout" }

/-- Rows numbered from `i` upward over the concatenated band list. -/
def numberFrom : Nat → List ParsedRec → List D878Row
  | _, [] => []
  | i, p :: ps => mkD878Row i p :: numberFrom (i + 1) ps

/-- `format_df_for_d878`: mode filter, numeric parse of both frequency
columns (one bad value raises), band partition 2m-then-70cm, and rows
renumbered from 1 over the concatenation. -/
def format_df_for_d878 (df : List Repeater) : Option (List D878Row) :=
  (parseNumeric (df.filter d878Keep)).map (fun prs =>
    numberFrom 1 (prs.filter in2m ++ prs.filter in70cm))

/-- Squared Euclidean distance between two coordinate pairs.  `pdist`
computes plain Euclidean distances; the embedding keeps squares and
compares them against the squared threshold, which agrees with scipy
because squaring is monotone on nonnegative reals. -/
def sqDist (p q : ℚ × ℚ) : ℚ :=
  ratAdd (ratMul (ratSub p.1 q.1) (ratSub p.1 q.1))
    (ratMul (ratSub p.2 q.2) (ratSub p.2 q.2))

/-- Complete-linkage distance (squared) between two clusters of point
indices: the maximum pairwise squared distance. -/
def clustDistSq (pts : List (ℚ × ℚ)) (a b : List Nat) : ℚ :=
  ((a.map (fun i => b.map (fun j =>
      sqDist (pts.getD i (0, 0)) (pts.getD j (0, 0))))).flatten).foldl max 0

/-- Every way of picking one element out of a list, with the rest. -/
def pickOne : List α → List (α × List α)
  | [] => []
  | x :: xs => (x, xs) :: (pickOne xs).map (fun p => (p.1, x :: p.2))

/-- Every unordered pair of elements, with the remaining elements. -/
def pairsWithRest : List α → List (α × α × List α)
  | [] => []
  | x :: xs =>
      (pickOne xs).map (fun p => (x, p.1, p.2)) ++
      (pairsWithRest xs).map (fun t => (t.1, t.2.1, x :: t.2.2))

/-- The candidate pair of clusters with the smallest complete-linkage
distance (leftmost on ties), together with that distance. -/
def bestPair (pts : List (ℚ × ℚ)) :
    List (List Nat × List Nat × List (List Nat)) →
      Option ((List Nat × List Nat × List (List Nat)) × ℚ)
  | [] => none
  | t :: ts =>
      let d := clustDistSq pts t.1 t.2.1
      match bestPair pts ts with
      | none => some (t, d)
      | some (t2, d2) => if d2 < d then some (t2, d2) else some (t, d)

/-- Complete-linkage agglomeration: merge the closest pair of clusters
while its complete-linkage distance stays within the threshold.  That is
`fcluster(linkage(dist, method="complete"), t, criterion="distance")`:
complete linkage is a monotone linkage, so cutting its dendrogram at
height `t` is the same as stopping agglomeration at the first merge
whose height would exceed `t`.  The fuel argument bounds the number of
merges (at most one fewer than the number of points). -/
def agglomerate (tSq : ℚ) (pts : List (ℚ × ℚ)) : Nat → List (List Nat) → List (List Nat)
  | 0, cs => cs
  | n + 1, cs =>
      match bestPair pts (pairsWithRest cs) with
      | none => cs
      | some (t, d) =>
          if d ≤ tSq then agglomerate tSq pts n (t.2.2 ++ [t.1 ++ t.2.1]) else cs

/-- Every point starts in its own cluster. -/
def initClusters (n : Nat) : List (List Nat) :=
  (List.range n).map (fun i => [i])

/-- The flat clusters of the dendrogram cut, as lists of point indices. -/
def clustersOf (tSq : ℚ) (pts : List (ℚ × ℚ)) : List (List Nat) :=
  agglomerate tSq pts pts.length (initClusters pts.length)

/-- The square of the default 0.03 distance threshold of `write_map_md`. -/
def thresholdSq : ℚ :=
  mkRat 9 10000

/-- One map pin: popup label text and the rendered coordinate pair. -/
structure Pin where
  label : String
  placement : String
deriving DecidableEq

/-- Indices paired with elements, starting at `i` (Python enumerate). -/
def enumFromN : Nat → List α → List (Nat × α)
  | _, [] => []
  | i, x :: xs => (i, x) :: enumFromN (i + 1) xs

/-- The records of one cluster, in registry order: the grouping loop of
`write_map_md` appends `df.iloc[idx]` in increasing `idx` order. -/
def clusterMembers (df : List Repeater) (c : List Nat) : List Repeater :=
  ((enumFromN 0 df).filter (fun p => decide (p.1 ∈ c))).map Prod.snd

/-- The popup label: callsign and output frequency of every member, one
per line. -/
def pinMsg : List Repeater → String
  | [] => ""
  | r :: rs => r.callsign ++ " " ++ r.output ++ "<br>" ++ pinMsg rs

/-- Sum of a list of rationals. -/
def ratSum : List ℚ → ℚ
  | [] => 0
  | x :: xs => ratAdd x (ratSum xs)

/-- `np.mean(..., axis=0)`: latitudes and longitudes averaged
independently. -/
def meanCoords (ps : List (ℚ × ℚ)) : ℚ × ℚ :=
  (ratDiv (ratSum (ps.map Prod.fst)) (mkRat ps.length 1),
   ratDiv (ratSum (ps.map Prod.snd)) (mkRat ps.length 1))

/-- The pin of one cluster: concatenated member label and the member
coordinate mean rendered with 10 decimal digits. -/
def mkPin (df : List Repeater) (c : List Nat) : Pin :=
  let ms := clusterMembers df c
  let mc := meanCoords (ms.filterMap Repeater.coordinates)
  { label := pinMsg ms
    placement := "[" ++ fmtFixed mc.1 10 ++ ", " ++ fmtFixed mc.2 10 ++ "]" }

/-- The pin-building part of `write_map_md` (the two template-file
substitutions around it are plain string I/O).  `np.array` over the
Coordinates column followed by `pdist` raises as soon as any record has
no coordinates, hence the `mapOpt`.  A registry with fewer than two
records also raises: with no records `np.array` yields a 1-dimensional
array that `pdist` rejects, and with one record `pdist` yields an empty
condensed distance matrix that `linkage` rejects.  Otherwise each
cluster with a nonempty label becomes one pin. -/
def write_map_md (tSq : ℚ) (df : List Repeater) : Option (List Pin) :=
  match mapOpt Repeater.coordinates df with
  | none => none
  | some pts =>
      if pts.length < 2 then none
      else
        some ((clustersOf tSq pts).filterMap (fun c =>
          let p := mkPin df c
          if p.label.length != 0 then some p else none))

/-- A Python value stored in a candidate record dict: a string, a
two-element coordinate list, or None. -/
inductive PyVal where
  | str : String → PyVal
  | pair : ℚ → ℚ → PyVal
  | noneV : PyVal
deriving DecidableEq

/-- Python truthiness of the dict values: None and the empty string are
falsy, a two-element list is truthy. -/
def pyTruthy : PyVal → Bool
  | .str s => s.length != 0
  | .pair _ _ => true
  | .noneV => false

/-- The user-supplied arguments of `parse_args` that
`repeater_from_args` reads (the lookup id is read elsewhere); `mode`
defaults to FM and is always a string, every other argument may be
absent. -/
structure Args where
  name : Option String
  loc : Option String
  call : Option String
  freq : Option String
  offset : Option String
  tone : Option String
  mode : String
  lat : Option ℚ
  lon : Option ℚ
  long_name : Option String
  url : Option String
deriving DecidableEq

/-- An optional string argument as a dict value. -/
def optVal : Option String → PyVal
  | Option.none => PyVal.noneV
  | Option.some s => PyVal.str s

/-- Python truthiness of an optional float (0.0 is falsy). -/
def truthyQ : Option ℚ → Bool
  | Option.none => false
  | Option.some q => decide (q ≠ 0)

/-- `repeater_from_args`: the candidate dict built from user input, with
every falsy value removed. -/
def repeater_from_args (a : Args) : List (String × PyVal) :=
  ([("Group Name", optVal a.name),
    ("Callsign", optVal a.call),
    ("Location", optVal a.loc),
    ("Mode", PyVal.str a.mode),
    ("Output (MHz)", optVal a.freq),
    ("Offset (MHz)", optVal a.offset),
    ("Tone (Hz)", optVal a.tone),
    ("Coordinates",
      if truthyQ a.lat && truthyQ a.lon then
        PyVal.pair (a.lat.getD 0) (a.lon.getD 0)
      else PyVal.noneV),
    ("Long Name", optVal a.long_name),
    ("Website", optVal a.url)]).filter (fun e => pyTruthy e.2)

/-- The dict assembled by `repeater_from_repeaterbook` from the scraped
page fields (the network fetch and string scraping that produce the five
inputs are abstracted as arguments; the tone is the empty string when
the page has no uplink tone).  No emptiness filtering is applied. -/
def repeater_from_repeaterbook (call freq offset tone : String)
    (latlong : PyVal) : List (String × PyVal) :=
  [("Callsign", PyVal.str call),
   ("Output (MHz)", PyVal.str freq),
   ("Offset (MHz)", PyVal.str offset),
   ("Tone (Hz)", PyVal.str tone),
   ("Coordinates", latlong)]

/-- The Python double-splat dict merge of `generate_repeater_df`: keys
of the left dict in order, each overridden by the right dict when
present there, followed by the keys only the right dict has. -/
def pyMerge (d1 d2 : List (String × PyVal)) : List (String × PyVal) :=
  d1.map (fun e => (e.1, (d2.lookup e.1).getD e.2)) ++
    d2.filter (fun e => (d1.lookup e.1).isNone)

/-- Consecutive integers `[i, i+1, ..., i+n-1]`, the 1-based row labels
both exporters assign. -/
def natsFrom : Nat → Nat → List Nat
  | _, 0 => []
  | i, n + 1 => i :: natsFrom (i + 1) n

/-- A plain FM registry row inside the 2m band. -/
def recFmW : Repeater :=
  ⟨"AA1AA", "FM", "146", "+1", "103.5", some (0, 0)⟩

/-- A DMR row whose tone matches the DMR pattern. -/
def recDmrW : Repeater :=
  ⟨"WW7PSR", "DMR", "146", "+1", "CC2/TS1 BEARS1 TG/312488", some (0, 0)⟩

/-- A DMR row with a D-prefixed tone, which fails the DMR pattern. -/
def recDmrD : Repeater :=
  ⟨"KC9ZZZ", "DMR", "146", "+1", "D023N", some (0, 0)⟩

/-- An FM row whose output frequency does not parse. -/
def recBadFreq : Repeater :=
  ⟨"BB2BB", "FM", "garbage", "+1", "100.0", some (0, 0)⟩

/-- A row without coordinates. -/
def recNoCoords : Repeater :=
  ⟨"CC3CC", "FM", "147", "+1", "100.0", none⟩

/-- A narrow-FM row with a DCS tone. -/
def recDcsW : Repeater :=
  ⟨"DD4DD", "NBFM", "147", "-1", "D023N", some (0, 0)⟩

/-- The D878 rows exported from the single-record registry `[recFmW]`. -/
def rowsFmW : List D878Row :=
  (format_df_for_d878 [recFmW]).getD []

/-- The single D878 row of `rowsFmW`. -/
def rowFmW : D878Row :=
  rowsFmW.headD (mkD878Row 0 ⟨recFmW, 0, 0⟩)

/-- Two records 0.01 apart (below the 0.03 threshold). -/
def dfNear : List Repeater :=
  [⟨"A", "FM", "146.94", "-0.6", "103.5", some (0, 0)⟩,
   ⟨"B", "FM", "147.38", "-0.6", "103.5", some (mkRat 1 100, 0)⟩]

/-- The coordinates column of `dfNear`. -/
def ptsNear : List (ℚ × ℚ) :=
  [(0, 0), (mkRat 1 100, 0)]

/-- Two records 0.05 apart (beyond the 0.03 threshold). -/
def dfFar : List Repeater :=
  [⟨"A", "FM", "146.94", "-0.6", "103.5", some (0, 0)⟩,
   ⟨"B", "FM", "147.38", "-0.6", "103.5", some (mkRat 1 20, 0)⟩]

/-- The merged pin of `dfNear`: one label with both members, placed at
the midpoint of the two coordinate pairs. -/
def pinNear : Pin :=
  ⟨"A 146.94<br>B 147.38<br>", "[0.0050000000, 0.0000000000]"⟩

/-- First of the two separate pins of `dfFar`. -/
def pinFarA : Pin :=
  ⟨"A 146.94<br>", "[0.0000000000, 0.0000000000]"⟩

/-- Second of the two separate pins of `dfFar`. -/
def pinFarB : Pin :=
  ⟨"B 147.38<br>", "[0.0500000000, 0.0000000000]"⟩

/-- Concrete user arguments: a callsign and location plus coordinates,
with no tone supplied. -/
def argsW : Args :=
  ⟨some "PSRG", some "Seattle", some "K7LED", some "146.96", some "-0.6",
    none, "FM", some 47, some (-122), none, none⟩

/-- The looked-up dict for a page without an uplink tone: the scraping
falls back to the empty string, which is stored unfiltered. -/
def rbW : List (String × PyVal) :=
  repeater_from_repeaterbook "K7LED" "146.82" "-0.6" "" (PyVal.pair 47 (-122))

/-- A DMR row inside the 70cm band. -/
def rec70W : Repeater :=
  ⟨"EE5EE", "DMR", "440.5", "+5", "CC1/TS2 TAC1 TG/8", some (0, 0)⟩

/-- An FM row outside both bands. -/
def recOutW : Repeater :=
  ⟨"FF6FF", "FM", "52.525", "+1", "100.0", some (0, 0)⟩

/-- A D-Star row, rejected by both mode filters. -/
def recDStarW : Repeater :=
  ⟨"GG7GG", "DStar", "146.5", "+1", "", some (0, 0)⟩

/-- A registry mixing every band case for the Dual-Mode exporter. -/
def dfC4W : List Repeater :=
  [recOutW, rec70W, recDStarW, recFmW, recDcsW]

/-- The parsed mode-kept records of `dfC4W`. -/
def prsC4W : List ParsedRec :=
  [⟨recOutW, mkRat 2101 40, 1⟩, ⟨rec70W, mkRat 881 2, 5⟩,
   ⟨recFmW, 146, 1⟩, ⟨recDcsW, 147, -1⟩]

/-- A throwaway CHIRP row used only as a `headD` default. -/
def chirpDummy : ChirpRow :=
  ⟨0, "", "", "", "", "", "", "", "", "", "", "", "", none, none, none, none, none⟩

/-- The CHIRP rows exported from the single-record registry `[recFmW]`. -/
def chirpRowsFmW : List ChirpRow :=
  (format_df_for_chirp [recFmW]).getD []

/-- The single CHIRP row of `chirpRowsFmW`. -/
def chirpRowFmW : ChirpRow :=
  chirpRowsFmW.headD chirpDummy

theorem mapOpt_mem (f : α → Option β) {l : List α} {ys : List β}
    (h : mapOpt f l = some ys) {x : α} (hx : x ∈ l) {y : β}
    (hy : f x = some y) : y ∈ ys := by
  induction l generalizing ys with
  | nil => cases hx
  | cons a as ih =>
      cases hfa : f a with
      | none => simp [mapOpt, hfa] at h
      | some b =>
          cases hrest : mapOpt f as with
          | none => simp [mapOpt, hfa, hrest] at h
          | some bs =>
              simp only [mapOpt, hfa, hrest, Option.some.injEq] at h
              subst h
              rcases List.mem_cons.mp hx with rfl | hx2
              · rw [hy] at hfa
                exact (Option.some.injEq _ _ ▸ hfa) ▸ List.mem_cons_self _ _
              · exact List.mem_cons_of_mem _ (ih hrest hx2)

theorem mapOpt_sources (f : α → Option β) {l : List α} {ys : List β}
    (h : mapOpt f l = some ys) : ∀ y ∈ ys, ∃ x ∈ l, f x = some y := by
  induction l generalizing ys with
  | nil =>
      simp only [mapOpt, Option.some.injEq] at h
      subst h
      intro y hy
      cases hy
  | cons a as ih =>
      cases hfa : f a with
      | none => simp [mapOpt, hfa] at h
      | some b =>
          cases hrest : mapOpt f as with
          | none => simp [mapOpt, hfa, hrest] at h
          | some bs =>
              simp only [mapOpt, hfa, hrest, Option.some.injEq] at h
              subst h
              intro y hy
              rcases List.mem_cons.mp hy with rfl | hy2
              · exact ⟨a, List.mem_cons_self _ _, hfa⟩
              · obtain ⟨x, hxl, hxy⟩ := ih hrest y hy2
                exact ⟨x, List.mem_cons_of_mem _ hxl, hxy⟩

theorem mapOpt_none (f : α → Option β) {l : List α} {x : α}
    (hx : x ∈ l) (hfx : f x = none) : mapOpt f l = none := by
  induction l with
  | nil => cases hx
  | cons a as ih =>
      rcases List.mem_cons.mp hx with rfl | hx2
      · cases hrest : mapOpt f as <;> simp [mapOpt, hfx, hrest]
      · cases hfa : f a <;> simp [mapOpt, hfa, ih hx2]

theorem mapOpt_ne_none (f : α → Option β) {l : List α}
    (h : ∀ x ∈ l, f x ≠ none) : mapOpt f l ≠ none := by
  induction l with
  | nil => simp [mapOpt]
  | cons a as ih =>
      cases hfa : f a with
      | none => exact absurd hfa (h a (List.mem_cons_self _ _))
      | some b =>
          cases hrest : mapOpt f as with
          | none =>
              exact absurd hrest (ih (fun x hx => h x (List.mem_cons_of_mem _ hx)))
          | some bs => simp [mapOpt, hfa, hrest]

theorem mapOpt_length (f : α → Option β) {l : List α} {ys : List β}
    (h : mapOpt f l = some ys) : ys.length = l.length := by
  induction l generalizing ys with
  | nil =>
      simp only [mapOpt, Option.some.injEq] at h
      subst h
      rfl
  | cons a as ih =>
      cases hfa : f a with
      | none => simp [mapOpt, hfa] at h
      | some b =>
          cases hrest : mapOpt f as with
          | none => simp [mapOpt, hfa, hrest] at h
          | some bs =>
              simp only [mapOpt, hfa, hrest, Option.some.injEq] at h
              subst h
              simp [ih hrest]

theorem mapOpt_map_back (f : α → Option β) (g : β → α)
    (hg : ∀ x y, f x = some y → g y = x) {l : List α} {ys : List β}
    (h : mapOpt f l = some ys) : ys.map g = l := by
  induction l generalizing ys with
  | nil =>
      simp only [mapOpt, Option.some.injEq] at h
      subst h
      rfl
  | cons a as ih =>
      cases hfa : f a with
      | none => simp [mapOpt, hfa] at h
      | some b =>
          cases hrest : mapOpt f as with
          | none => simp [mapOpt, hfa, hrest] at h
          | some bs =>
              simp only [mapOpt, hfa, hrest, Option.some.injEq] at h
              subst h
              simp [hg a b hfa, ih hrest]

theorem parseRec_src {r : Repeater} {p : ParsedRec}
    (h : parseRec r = some p) : p.src = r := by
  unfold parseRec at h
  cases hf : parseDec r.output with
  | none => rw [hf] at h; cases h
  | some f =>
      cases ho : parseDec r.offset with
      | none => rw [hf, ho] at h; cases h
      | some o =>
          rw [hf, ho] at h
          cases h
          rfl

theorem parseNumeric_srcs {rs : List Repeater} {prs : List ParsedRec}
    (h : parseNumeric rs = some prs) : prs.map ParsedRec.src = rs :=
  mapOpt_map_back parseRec ParsedRec.src (fun _ _ => parseRec_src) h

theorem numberFrom_length (i : Nat) (l : List ParsedRec) :
    (numberFrom i l).length = l.length := by
  induction l generalizing i with
  | nil => rfl
  | cons p ps ih => simp [numberFrom, ih]

theorem numberFrom_map_no (i : Nat) (l : List ParsedRec) :
    (numberFrom i l).map D878Row.no = natsFrom i l.length := by
  induction l generalizing i with
  | nil => rfl
  | cons p ps ih => simp [numberFrom, natsFrom, ih, mkD878Row]

theorem numberFrom_mem (i : Nat) (l : List ParsedRec) (p : ParsedRec)
    (hp : p ∈ l) : ∃ j, mkD878Row j p ∈ numberFrom i l := by
  induction l generalizing i with
  | nil => cases hp
  | cons a as ih =>
      rcases List.mem_cons.mp hp with rfl | hp2
      · exact ⟨i, List.mem_cons_self _ _⟩
      · obtain ⟨j, hj⟩ := ih (i + 1) hp2
        exact ⟨j, List.mem_cons_of_mem _ hj⟩

theorem numberFrom_origin (i : Nat) (l : List ParsedRec) (row : D878Row)
    (hrow : row ∈ numberFrom i l) : ∃ j p, p ∈ l ∧ row = mkD878Row j p := by
  induction l generalizing i with
  | nil => cases hrow
  | cons a as ih =>
      rcases List.mem_cons.mp hrow with rfl | hrow2
      · exact ⟨i, a, List.mem_cons_self _ _, rfl⟩
      · obtain ⟨j, p, hpl, hje⟩ := ih (i + 1) hrow2
        exact ⟨j, p, List.mem_cons_of_mem _ hpl, hje⟩

theorem chirpRows_mem {i : Nat} {l : List Repeater} {rows : List ChirpRow}
    (h : chirpRows i l = some rows) {r : Repeater} (hr : r ∈ l) :
    ∃ j row, mkChirpRow j r = some row ∧ row ∈ rows := by
  induction l generalizing i rows with
  | nil => cases hr
  | cons a as ih =>
      cases hfa : mkChirpRow i a with
      | none => simp [chirpRows, hfa] at h
      | some row0 =>
          cases hrest : chirpRows (i + 1) as with
          | none => simp [chirpRows, hfa, hrest] at h
          | some rows0 =>
              simp only [chirpRows, hfa, hrest, Option.some.injEq] at h
              subst h
              rcases List.mem_cons.mp hr with rfl | hr2
              · exact ⟨i, row0, hfa, List.mem_cons_self _ _⟩
              · obtain ⟨j, row, hmk, hin⟩ := ih hrest hr2
                exact ⟨j, row, hmk, List.mem_cons_of_mem _ hin⟩

theorem chirpRows_origin {i : Nat} {l : List Repeater} {rows : List ChirpRow}
    (h : chirpRows i l = some rows) {row : ChirpRow} (hrow : row ∈ rows) :
    ∃ j r, r ∈ l ∧ mkChirpRow j r = some row := by
  induction l generalizing i rows with
  | nil =>
      simp only [chirpRows, Option.some.injEq] at h
      subst h
      cases hrow
  | cons a as ih =>
      cases hfa : mkChirpRow i a with
      | none => simp [chirpRows, hfa] at h
      | some row0 =>
          cases hrest : chirpRows (i + 1) as with
          | none => simp [chirpRows, hfa, hrest] at h
          | some rows0 =>
              simp only [chirpRows, hfa, hrest, Option.some.injEq] at h
              subst h
              rcases List.mem_cons.mp hrow with rfl | hrow2
              · exact ⟨i, a, List.mem_cons_self _ _, hfa⟩
              · obtain ⟨j, r, hrl, hmk⟩ := ih hrest hrow2
                exact ⟨j, r, List.mem_cons_of_mem _ hrl, hmk⟩

theorem d878_emits {df : List Repeater} {rows : List D878Row}
    (hrun : format_df_for_d878 df = some rows) {r : Repeater} {f o : ℚ}
    (hmem : r ∈ df) (hkeep : d878Keep r = true)
    (hf : parseDec r.output = some f) (ho : parseDec r.offset = some o)
    (hband : (in2m ⟨r, f, o⟩ || in70cm ⟨r, f, o⟩) = true) :
    ∃ j, mkD878Row j ⟨r, f, o⟩ ∈ rows := by
  unfold format_df_for_d878 at hrun
  cases hp : parseNumeric (df.filter d878Keep) with
  | none => rw [hp] at hrun; cases hrun
  | some prs =>
      rw [hp] at hrun
      simp only [Option.map_some', Option.some.injEq] at hrun
      subst hrun
      have hmem2 : r ∈ df.filter d878Keep := List.mem_filter.mpr ⟨hmem, hkeep⟩
      have hpr : parseRec r = some ⟨r, f, o⟩ := by simp [parseRec, hf, ho]
      have hin : (⟨r, f, o⟩ : ParsedRec) ∈ prs := mapOpt_mem parseRec hp hmem2 hpr
      have hband2 :
          (⟨r, f, o⟩ : ParsedRec) ∈ prs.filter in2m ++ prs.filter in70cm := by
        rcases (Bool.or_eq_true _ _).mp hband with h2 | h7
        · exact List.mem_append_left _ (List.mem_filter.mpr ⟨hin, h2⟩)
        · exact List.mem_append_right _ (List.mem_filter.mpr ⟨hin, h7⟩)
      exact numberFrom_mem 1 _ _ hband2

/-- C1: in the Dual-Mode exporter a DMR record is classified by mode
first: its row is emitted (never dropped) with the CTCSS/DCS Encode
field absent even when its tone starts with D, and when the tone fails
the DMR pattern the four digital captures (Contact, Contact TG/DMR ID,
Color Code, Slot) are all absent, without raising. -/
theorem C1_dmr_mode_gate (df : List Repeater) (rows : List D878Row)
    (r : Repeater) (f o : ℚ)
    (hrun : format_df_for_d878 df = some rows)
    (hmem : r ∈ df) (hmode : r.mode = "DMR")
    (hf : parseDec r.output = some f) (ho : parseDec r.offset = some o)
    (hband : (in2m ⟨r, f, o⟩ || in70cm ⟨r, f, o⟩) = true) :
    ∃ j, mkD878Row j ⟨r, f, o⟩ ∈ rows ∧
      (mkD878Row j ⟨r, f, o⟩).ctcssDcsEncode = none ∧
      (extractDMR r.tone = none →
        (mkD878Row j ⟨r, f, o⟩).contact = none ∧
        (mkD878Row j ⟨r, f, o⟩).contactTgId = none ∧
        (mkD878Row j ⟨r, f, o⟩).colorCode = none ∧
        (mkD878Row j ⟨r, f, o⟩).slot = none) := by
  obtain ⟨j, hj⟩ := d878_emits hrun hmem (by simp [d878Keep, hmode]) hf ho hband
  refine ⟨j, hj, ?_, ?_⟩
  · simp [mkD878Row, hmode]
  · intro hext
    simp [mkD878Row, hmode, hext]

theorem C1_witness :
    extractDMR recDmrD.tone = none ∧
      (∃ j, mkD878Row j ⟨recDmrD, 146, 1⟩ ∈ (format_df_for_d878 [recDmrD]).getD [] ∧
        (mkD878Row j ⟨recDmrD, 146, 1⟩).ctcssDcsEncode = none ∧
        (extractDMR recDmrD.tone = none →
          (mkD878Row j ⟨recDmrD, 146, 1⟩).contact = none ∧
          (mkD878Row j ⟨recDmrD, 146, 1⟩).contactTgId = none ∧
          (mkD878Row j ⟨recDmrD, 146, 1⟩).colorCode = none ∧
          (mkD878Row j ⟨recDmrD, 146, 1⟩).slot = none)) :=
  ⟨by decide,
    C1_dmr_mode_gate [recDmrD] ((format_df_for_d878 [recDmrD]).getD [])
      recDmrD 146 1 (by decide) (by decide) rfl (by decide) (by decide) (by decide)⟩

/-- C2: every record kept by the Generic-FM exporter whose offset string
begins with an explicit sign yields a row whose Duplex is exactly that
first character, hence "+" or "-", and whose Offset is the numeric value
of the remaining characters rendered with exactly 6 decimal digits. -/
theorem C2_duplex_offset (df : List Repeater) (rows : List ChirpRow)
    (r : Repeater) (c : Char) (q : ℚ)
    (hrun : format_df_for_chirp df = some rows)
    (hkept : r ∈ df.filter chirpKeep)
    (hhead : r.offset.toList.head? = some c)
    (hsign : c = '+' ∨ c = '-')
    (hq : parseDec (pyDropFrom r.offset 1) = some q) :
    ∃ j row, mkChirpRow j r = some row ∧ row ∈ rows ∧
      row.duplex = String.mk [c] ∧ (row.duplex = "+" ∨ row.duplex = "-") ∧
      row.offset = fmtFixed q 6 := by
  obtain ⟨j, row, hmk, hin⟩ := chirpRows_mem hrun hkept
  refine ⟨j, row, hmk, hin, ?_⟩
  unfold mkChirpRow at hmk
  rw [hq] at hmk
  simp only [Option.some.injEq] at hmk
  subst hmk
  cases hl : r.offset.toList with
  | nil => rw [hl] at hhead; cases hhead
  | cons a t =>
      rw [hl] at hhead
      simp only [List.head?_cons, Option.some.injEq] at hhead
      subst hhead
      refine ⟨?_, ?_, rfl⟩
      · simp only [pyFirst]
        rw [hl]
        rfl
      · rcases hsign with rfl | rfl
        · refine Or.inl ?_
          simp only [pyFirst]
          rw [hl]
          rfl
        · refine Or.inr ?_
          simp only [pyFirst]
          rw [hl]
          rfl

theorem C2_witness :
    parseDec (pyDropFrom recFmW.offset 1) = some 1 ∧
      (∃ j row, mkChirpRow j recFmW = some row ∧
        row ∈ (format_df_for_chirp [recFmW]).getD [] ∧
        row.duplex = String.mk ['+'] ∧
        (row.duplex = "+" ∨ row.duplex = "-") ∧
        row.offset = fmtFixed 1 6) :=
  ⟨by decide,
    C2_duplex_offset [recFmW] ((format_df_for_chirp [recFmW]).getD [])
      recFmW '+' 1 (by decide) (by decide) (by decide) (Or.inl rfl) (by decide)⟩

/-- C3: DCS rendering agrees between the exporters: any kept CHIRP
record with a D-prefixed tone gets Tone="DTCS", DtcsCode equal to
characters 1 through 3 of the tone, and rToneFreq forced to "88.5"; any
emitted non-DMR Dual-Mode record with a D-prefixed tone renders
CTCSS/DCS Encode as "D" ++ tone[1:4] ++ "N". -/
theorem C3_dcs_rendering :
    (∀ (df : List Repeater) (rows : List ChirpRow) (r : Repeater),
      format_df_for_chirp df = some rows → r ∈ df.filter chirpKeep →
      startsWithD r.tone = true →
      ∃ j row, mkChirpRow j r = some row ∧ row ∈ rows ∧
        row.tone = "DTCS" ∧ row.dtcsCode = pySlice r.tone 1 4 ∧
        row.rToneFreq = "88.5") ∧
    (∀ (df : List Repeater) (rows : List D878Row) (r : Repeater) (f o : ℚ),
      format_df_for_d878 df = some rows → r ∈ df → d878Keep r = true →
      r.mode ≠ "DMR" → startsWithD r.tone = true →
      parseDec r.output = some f → parseDec r.offset = some o →
      (in2m ⟨r, f, o⟩ || in70cm ⟨r, f, o⟩) = true →
      ∃ j, mkD878Row j ⟨r, f, o⟩ ∈ rows ∧
        (mkD878Row j ⟨r, f, o⟩).ctcssDcsEncode =
          some ("D" ++ pySlice r.tone 1 4 ++ "N")) := by
  constructor
  · intro df rows r hrun hkept htone
    obtain ⟨j, row, hmk, hin⟩ := chirpRows_mem hrun hkept
    refine ⟨j, row, hmk, hin, ?_⟩
    unfold mkChirpRow at hmk
    cases hq : parseDec (pyDropFrom r.offset 1) with
    | none => rw [hq] at hmk; cases hmk
    | some mag =>
        rw [hq] at hmk
        simp only [Option.some.injEq] at hmk
        subst hmk
        simp [htone]
  · intro df rows r f o hrun hmem hkeep hne htone hf ho hband
    obtain ⟨j, hj⟩ := d878_emits hrun hmem hkeep hf ho hband
    refine ⟨j, hj, ?_⟩
    have hbeq : (r.mode == "DMR") = false := beq_eq_false_iff_ne.mpr hne
    simp [mkD878Row, hbeq, htone]

theorem C3_witness :
    startsWithD recDcsW.tone = true ∧
      (∃ j row, mkChirpRow j recDcsW = some row ∧
        row ∈ (format_df_for_chirp [recDcsW]).getD [] ∧ row.tone = "DTCS" ∧
        row.dtcsCode = pySlice recDcsW.tone 1 4 ∧ row.rToneFreq = "88.5") ∧
      (∃ j, mkD878Row j ⟨recDcsW, 147, -1⟩ ∈
          (format_df_for_d878 [recDcsW]).getD [] ∧
        (mkD878Row j ⟨recDcsW, 147, -1⟩).ctcssDcsEncode =
          some ("D" ++ pySlice recDcsW.tone 1 4 ++ "N")) :=
  ⟨by decide,
    C3_dcs_rendering.1 [recDcsW] ((format_df_for_chirp [recDcsW]).getD [])
      recDcsW (by decide) (by decide) (by decide),
    C3_dcs_rendering.2 [recDcsW] ((format_df_for_d878 [recDcsW]).getD [])
      recDcsW 147 (-1) (by decide) (by decide) (by decide) (by decide)
      (by decide) rfl (by decide) (by decide)⟩

/-- C10: every row emitted by the Generic-FM exporter carries the fixed
companion constants cToneFreq="88.5", DtcsPolarity="NN", TStep="5.00",
and every row whose source tone does not begin with D carries
DtcsCode="023". -/
theorem C10_chirp_constants (df : List Repeater) (rows : List ChirpRow)
    (hrun : format_df_for_chirp df = some rows) :
    ∀ row ∈ rows,
      row.cToneFreq = "88.5" ∧ row.dtcsPolarity = "NN" ∧ row.tStep = "5.00" ∧
      ∃ j r, r ∈ df.filter chirpKeep ∧ mkChirpRow j r = some row ∧
        (startsWithD r.tone = false → row.dtcsCode = "023") := by
  intro row hrow
  obtain ⟨j, r, hrl, hmk⟩ := chirpRows_origin hrun hrow
  have hmk2 := hmk
  unfold mkChirpRow at hmk2
  cases hq : parseDec (pyDropFrom r.offset 1) with
  | none => rw [hq] at hmk2; cases hmk2
  | some mag =>
      rw [hq] at hmk2
      simp only [Option.some.injEq] at hmk2
      subst hmk2
      refine ⟨rfl, rfl, rfl, j, r, hrl, hmk, ?_⟩
      intro htone
      simp [htone]

theorem C10_witness :
    chirpRowFmW.cToneFreq = "88.5" ∧ chirpRowFmW.dtcsPolarity = "NN" ∧
      chirpRowFmW.tStep = "5.00" ∧
      ∃ j r, r ∈ [recFmW].filter chirpKeep ∧
        mkChirpRow j r = some chirpRowFmW ∧
        (startsWithD r.tone = false → chirpRowFmW.dtcsCode = "023") :=
  C10_chirp_constants [recFmW] chirpRowsFmW (by decide) chirpRowFmW (by decide)

/-- C4: the Dual-Mode exporter emits exactly the mode-kept records whose
parsed output frequency lies strictly inside (144,148) or (430,450), in
band-major order — every 2m row first, then every 70cm row, each
sublist in registry order — and renumbers the rows from 1 over that
concatenation. -/
theorem C4_band_partition (df : List Repeater) (prs : List ParsedRec)
    (hp : parseNumeric (df.filter d878Keep) = some prs) :
    format_df_for_d878 df =
        some (numberFrom 1 (prs.filter in2m ++ prs.filter in70cm)) ∧
      prs.map ParsedRec.src = df.filter d878Keep ∧
      (∀ p ∈ prs.filter in2m, 144 < p.freq ∧ p.freq < 148) ∧
      (∀ p ∈ prs.filter in70cm, 430 < p.freq ∧ p.freq < 450) ∧
      (∀ p ∈ prs,
        (144 < p.freq ∧ p.freq < 148) ∨ (430 < p.freq ∧ p.freq < 450) →
          p ∈ prs.filter in2m ++ prs.filter in70cm) ∧
      (∀ rows, format_df_for_d878 df = some rows →
        rows.map D878Row.no = natsFrom 1 rows.length) := by
  have hrun : format_df_for_d878 df =
      some (numberFrom 1 (prs.filter in2m ++ prs.filter in70cm)) := by
    simp [format_df_for_d878, hp]
  refine ⟨hrun, parseNumeric_srcs hp, ?_, ?_, ?_, ?_⟩
  · intro p hp2
    have h2 := (List.mem_filter.mp hp2).2
    simpa [in2m] using h2
  · intro p hp2
    have h7 := (List.mem_filter.mp hp2).2
    simpa [in70cm] using h7
  · intro p hmem hband
    rcases hband with h | h
    · exact List.mem_append_left _
        (List.mem_filter.mpr ⟨hmem, by simp [in2m, h.1, h.2]⟩)
    · exact List.mem_append_right _
        (List.mem_filter.mpr ⟨hmem, by simp [in70cm, h.1, h.2]⟩)
  · intro rows hrows
    rw [hrun] at hrows
    injection hrows with hrows
    subst hrows
    rw [numberFrom_map_no, numberFrom_length]

theorem C4_witness :
    parseNumeric (dfC4W.filter d878Keep) = some prsC4W ∧
      format_df_for_d878 dfC4W =
        some (numberFrom 1 (prsC4W.filter in2m ++ prsC4W.filter in70cm)) :=
  ⟨by decide, (C4_band_partition dfC4W prsC4W (by decide)).1⟩

/-- C5 counterexample: the registry row `recDmrD` (mode DMR, tone
"D023N", in band) is emitted with an empty Color Code: the claim that
the Color Code column is never empty fails on DMR rows whose tone does
not match the DMR pattern, because the decoded (absent) color overwrites
the default 1. -/
theorem C5_counterexample :
    (format_df_for_d878 [recDmrD]).map (List.map D878Row.colorCode) =
      some [none] := by decide

/-- C5 amended: every emitted Dual-Mode row has Color Code 1 when its
record is not DMR; for DMR records the field is exactly the decoded
color capture, which is absent when the tone fails the pattern. -/
theorem C5_amended_colorcode (df : List Repeater) (rows : List D878Row)
    (hrun : format_df_for_d878 df = some rows) :
    ∀ row ∈ rows, ∃ j p, row = mkD878Row j p ∧
      p.src ∈ df.filter d878Keep ∧
      (p.src.mode ≠ "DMR" → row.colorCode = some "1") ∧
      (p.src.mode = "DMR" →
        row.colorCode = (extractDMR p.src.tone).map DmrCaps.color) := by
  intro row hrow
  unfold format_df_for_d878 at hrun
  cases hp : parseNumeric (df.filter d878Keep) with
  | none => rw [hp] at hrun; cases hrun
  | some prs =>
      rw [hp] at hrun
      simp only [Option.map_some', Option.some.injEq] at hrun
      subst hrun
      obtain ⟨j, p, hpl, hje⟩ := numberFrom_origin 1 _ row hrow
      have hpmem : p ∈ prs := by
        rcases List.mem_append.mp hpl with h | h
        · exact (List.mem_filter.mp h).1
        · exact (List.mem_filter.mp h).1
      have hpsrc : p.src ∈ df.filter d878Keep :=
        parseNumeric_srcs hp ▸ List.mem_map_of_mem ParsedRec.src hpmem
      subst hje
      refine ⟨j, p, rfl, hpsrc, ?_, ?_⟩
      · intro hne
        simp [mkD878Row, beq_eq_false_iff_ne.mpr hne]
      · intro heq
        simp [mkD878Row, heq]

theorem C5_witness :
    ∃ j p, rowFmW = mkD878Row j p ∧
      p.src ∈ [recFmW].filter d878Keep ∧
      (p.src.mode ≠ "DMR" → rowFmW.colorCode = some "1") ∧
      (p.src.mode = "DMR" →
        rowFmW.colorCode = (extractDMR p.src.tone).map DmrCaps.color) :=
  C5_amended_colorcode [recFmW] rowsFmW (by decide) rowFmW (by decide)

/-- C6 counterexample: one mode-kept record with an unparseable output
frequency makes the whole Dual-Mode export fail — the well-formed record
beside it is not exported either — refuting the claim that such a record
is silently excluded while the run continues. -/
theorem C6_counterexample :
    format_df_for_d878 [recFmW, recBadFreq] = none ∧
      format_df_for_d878 [recFmW] ≠ none := by
  exact ⟨by decide, by decide⟩

/-- C6 amended: a record kept by the mode filter whose output frequency
or offset does not parse aborts the whole Dual-Mode export (the numeric
conversion raises and nothing is emitted); only records rejected by the
mode filter are excluded without ever being parsed. -/
theorem C6_amended_parse_abort :
    (∀ (df : List Repeater) (r : Repeater), r ∈ df.filter d878Keep →
      parseDec r.output = none ∨ parseDec r.offset = none →
      format_df_for_d878 df = none) ∧
    (∀ (df : List Repeater) (b : Repeater), d878Keep b = false →
      format_df_for_d878 (b :: df) = format_df_for_d878 df) := by
  constructor
  · intro df r hmem hbad
    have hpr : parseRec r = none := by
      rcases hbad with h | h
      · simp [parseRec, h]
      · cases hf : parseDec r.output <;> simp [parseRec, hf, h]
    have hnone := mapOpt_none parseRec hmem hpr
    simp only [format_df_for_d878, parseNumeric] at *
    rw [hnone]
    rfl
  · intro df b hb
    simp [format_df_for_d878, List.filter_cons, hb]

theorem C6_witness :
    (parseDec recBadFreq.output = none ∧
        format_df_for_d878 [recFmW, recBadFreq] = none) ∧
      (d878Keep recDStarW = false ∧
        format_df_for_d878 (recDStarW :: [recFmW]) =
          format_df_for_d878 [recFmW]) :=
  ⟨⟨by decide,
      C6_amended_parse_abort.1 [recFmW, recBadFreq] recBadFreq (by decide)
        (Or.inl (by decide))⟩,
    ⟨by decide, C6_amended_parse_abort.2 [recFmW] recDStarW (by decide)⟩⟩

/-- C7 counterexample: a registry containing one record without
coordinates makes the clustering fail outright (no pins are produced,
not even for the two records that have coordinates), refuting the claim
that such records are excluded while clustering completes. -/
theorem C7_counterexample :
    write_map_md thresholdSq [recFmW, recNoCoords, recDcsW] = none ∧
      write_map_md thresholdSq [recFmW, recDcsW] ≠ none := by
  exact ⟨by decide, by decide⟩

/-- C7 amended: any record without coordinates makes the map clustering
raise (the coordinate matrix construction fails), a registry with fewer
than two records also makes it raise (pdist and linkage reject it), and
the clustering completes exactly when every record carries coordinates
and there are at least two records. -/
theorem C7_amended_coords (tSq : ℚ) :
    (∀ (df : List Repeater) (r : Repeater), r ∈ df →
      r.coordinates = none → write_map_md tSq df = none) ∧
    (∀ df : List Repeater, df.length < 2 → write_map_md tSq df = none) ∧
    (∀ df : List Repeater, (∀ r ∈ df, r.coordinates ≠ none) →
      2 ≤ df.length → write_map_md tSq df ≠ none) := by
  refine ⟨?_, ?_, ?_⟩
  · intro df r hmem hco
    have hnone := mapOpt_none Repeater.coordinates hmem hco
    simp [write_map_md, hnone]
  · intro df hlen
    cases h2 : mapOpt Repeater.coordinates df with
    | none => simp [write_map_md, h2]
    | some pts =>
        have hl : pts.length = df.length := mapOpt_length _ h2
        have hlt : pts.length < 2 := by omega
        simp [write_map_md, h2, hlt]
  · intro df h hge
    have hne := mapOpt_ne_none Repeater.coordinates h
    cases h2 : mapOpt Repeater.coordinates df with
    | none => exact absurd h2 hne
    | some pts =>
        have hl : pts.length = df.length := mapOpt_length _ h2
        have hnl : ¬ pts.length < 2 := by omega
        simp [write_map_md, h2, hnl]

theorem C7_witness :
    (recNoCoords.coordinates = none ∧
        write_map_md thresholdSq [recFmW, recNoCoords, recDcsW] = none) ∧
      write_map_md thresholdSq [recFmW] = none ∧
      write_map_md thresholdSq [recFmW, recDcsW] ≠ none :=
  ⟨⟨rfl,
      (C7_amended_coords thresholdSq).1 [recFmW, recNoCoords, recDcsW]
        recNoCoords (by decide) rfl⟩,
    (C7_amended_coords thresholdSq).2.1 [recFmW] (by decide),
    (C7_amended_coords thresholdSq).2.2 [recFmW, recDcsW] (by decide)
      (by decide)⟩

theorem pickOne_mem {l : List α} :
    ∀ {y : α} {rest : List α}, (y, rest) ∈ pickOne l →
      y ∈ l ∧ ∀ x ∈ rest, x ∈ l := by
  induction l with
  | nil => intro y rest h; cases h
  | cons a as ih =>
      intro y rest h
      rcases List.mem_cons.mp h with heq | hmem
      · rw [Prod.mk.injEq] at heq
        obtain ⟨rfl, rfl⟩ := heq
        exact ⟨List.mem_cons_self _ _, fun x hx => List.mem_cons_of_mem _ hx⟩
      · rcases List.mem_map.mp hmem with ⟨p, hp, heq⟩
        rw [Prod.mk.injEq] at heq
        obtain ⟨rfl, rfl⟩ := heq
        obtain ⟨h1, h2⟩ := ih hp
        refine ⟨List.mem_cons_of_mem _ h1, ?_⟩
        intro x hx
        rcases List.mem_cons.mp hx with rfl | hx2
        · exact List.mem_cons_self _ _
        · exact List.mem_cons_of_mem _ (h2 x hx2)

theorem pairsWithRest_mem {l : List α} :
    ∀ {t : α × α × List α}, t ∈ pairsWithRest l →
      t.1 ∈ l ∧ t.2.1 ∈ l ∧ ∀ x ∈ t.2.2, x ∈ l := by
  induction l with
  | nil => intro t h; cases h
  | cons a as ih =>
      intro t h
      rcases List.mem_append.mp h with h1 | h2
      · rcases List.mem_map.mp h1 with ⟨p, hp, heq⟩
        subst heq
        obtain ⟨g1, g2⟩ := pickOne_mem hp
        exact ⟨List.mem_cons_self _ _, List.mem_cons_of_mem _ g1,
          fun x hx => List.mem_cons_of_mem _ (g2 x hx)⟩
      · rcases List.mem_map.mp h2 with ⟨u, hu, heq⟩
        subst heq
        obtain ⟨g1, g2, g3⟩ := ih hu
        refine ⟨List.mem_cons_of_mem _ g1, List.mem_cons_of_mem _ g2, ?_⟩
        intro x hx
        rcases List.mem_cons.mp hx with rfl | hx2
        · exact List.mem_cons_self _ _
        · exact List.mem_cons_of_mem _ (g3 x hx2)

theorem bestPair_mem {pts : List (ℚ × ℚ)} :
    ∀ {cands : List (List Nat × List Nat × List (List Nat))}
      {t : List Nat × List Nat × List (List Nat)} {d : ℚ},
      bestPair pts cands = some (t, d) → t ∈ cands := by
  intro cands
  induction cands with
  | nil => intro t d h; cases h
  | cons c cs ih =>
      intro t d h
      unfold bestPair at h
      cases hrec : bestPair pts cs with
      | none =>
          rw [hrec] at h
          simp only [Option.some.injEq, Prod.mk.injEq] at h
          obtain ⟨rfl, rfl⟩ := h
          exact List.mem_cons_self _ _
      | some td =>
          obtain ⟨t2, d2⟩ := td
          rw [hrec] at h
          dsimp only at h
          split_ifs at h with hlt
          · simp only [Option.some.injEq, Prod.mk.injEq] at h
            obtain ⟨rfl, rfl⟩ := h
            exact List.mem_cons_of_mem _ (ih hrec)
          · simp only [Option.some.injEq, Prod.mk.injEq] at h
            obtain ⟨rfl, rfl⟩ := h
            exact List.mem_cons_self _ _

theorem agglomerate_inv (tSq : ℚ) (pts : List (ℚ × ℚ))
    (P : List Nat → Prop) (hP : ∀ a b, P a → P b → P (a ++ b)) :
    ∀ (fuel : Nat) (cs : List (List Nat)), (∀ c ∈ cs, P c) →
      ∀ c ∈ agglomerate tSq pts fuel cs, P c := by
  intro fuel
  induction fuel with
  | zero => intro cs h c hc; exact h c hc
  | succ n ih =>
      intro cs h c hc
      unfold agglomerate at hc
      cases hb : bestPair pts (pairsWithRest cs) with
      | none => rw [hb] at hc; exact h c hc
      | some td =>
          obtain ⟨t, d⟩ := td
          rw [hb] at hc
          dsimp only at hc
          by_cases hd : d ≤ tSq
          · rw [if_pos hd] at hc
            refine ih _ ?_ c hc
            intro c2 hc2
            obtain ⟨m1, m2, m3⟩ := pairsWithRest_mem (bestPair_mem hb)
            rcases List.mem_append.mp hc2 with hrest | hnew
            · exact h c2 (m3 c2 hrest)
            · rw [List.mem_singleton] at hnew
              subst hnew
              exact hP _ _ (h _ m1) (h _ m2)
          · rw [if_neg hd] at hc
            exact h c hc

theorem clustersOf_inv (tSq : ℚ) (pts : List (ℚ × ℚ)) :
    ∀ c ∈ clustersOf tSq pts, c ≠ [] ∧ ∀ i ∈ c, i < pts.length := by
  refine agglomerate_inv tSq pts _ ?_ pts.length _ ?_
  · intro a b ha hb
    refine ⟨?_, ?_⟩
    · intro hab
      exact ha.1 (List.append_eq_nil.mp hab).1
    · intro i hi
      rcases List.mem_append.mp hi with h | h
      · exact ha.2 i h
      · exact hb.2 i h
  · intro c hc
    simp only [initClusters, List.mem_map, List.mem_range] at hc
    obtain ⟨i, hi, rfl⟩ := hc
    refine ⟨by simp, ?_⟩
    intro k hk
    rw [List.mem_singleton] at hk
    subst hk
    exact hi

theorem enumFromN_mem (l : List α) :
    ∀ (k i : Nat), i < l.length → ∃ x, (k + i, x) ∈ enumFromN k l := by
  induction l with
  | nil => intro k i h; cases h
  | cons a as ih =>
      intro k i h
      cases i with
      | zero => exact ⟨a, by simp [enumFromN]⟩
      | succ n =>
          obtain ⟨x, hx⟩ := ih (k + 1) n (by simpa using h)
          refine ⟨x, ?_⟩
          have he : k + (n + 1) = (k + 1) + n := by omega
          rw [he]
          exact List.mem_cons_of_mem _ hx

theorem clusterMembers_ne_nil {df : List Repeater} {c : List Nat} {i : Nat}
    (hic : i ∈ c) (hlt : i < df.length) : clusterMembers df c ≠ [] := by
  obtain ⟨x, hx⟩ := enumFromN_mem df 0 i hlt
  rw [Nat.zero_add] at hx
  intro hnil
  unfold clusterMembers at hnil
  rw [List.map_eq_nil_iff] at hnil
  rw [List.filter_eq_nil_iff] at hnil
  exact hnil (i, x) hx (by simp [hic])

theorem pinMsg_length_pos {ms : List Repeater} (h : ms ≠ []) :
    (pinMsg ms).length ≠ 0 := by
  cases ms with
  | nil => exact absurd rfl h
  | cons r rs =>
      have h1 : (" " : String).length = 1 := rfl
      have h4 : ("<br>" : String).length = 4 := rfl
      simp [pinMsg, String.length_append, h1, h4]

theorem filterMap_if_map {l : List α} (g : α → β) (p : α → Bool)
    (h : ∀ x ∈ l, p x = true) :
    l.filterMap (fun x => if p x then some (g x) else none) = l.map g := by
  induction l with
  | nil => rfl
  | cons a as ih =>
      have hpa := h a (List.mem_cons_self _ _)
      simp [List.filterMap_cons, hpa,
        ih (fun x hx => h x (List.mem_cons_of_mem _ hx))]

/-- C8: for a registry of at least two records all carrying coordinates
(the clustering raises otherwise), the map builder emits, after the
complete-linkage dendrogram cut at the default threshold, exactly one
pin per cluster; the pin's label concatenates every member's callsign
and frequency (one per line) and its placement is the arithmetic mean of
the member coordinates (latitudes and longitudes averaged independently)
rendered to 10 decimal digits.  Two records 0.01 apart merge into a
single pin placed at their midpoint; two records 0.05 apart yield two
separate pins. -/
theorem C8_cluster_pins :
    (∀ (df : List Repeater) (pts : List (ℚ × ℚ)),
      mapOpt Repeater.coordinates df = some pts → 2 ≤ pts.length →
      write_map_md thresholdSq df =
          some ((clustersOf thresholdSq pts).map (mkPin df)) ∧
        ∀ c ∈ clustersOf thresholdSq pts,
          (mkPin df c).label = pinMsg (clusterMembers df c) ∧
          (mkPin df c).placement =
            "[" ++
              fmtFixed (meanCoords ((clusterMembers df c).filterMap
                Repeater.coordinates)).1 10 ++
              ", " ++
              fmtFixed (meanCoords ((clusterMembers df c).filterMap
                Repeater.coordinates)).2 10 ++ "]") ∧
      write_map_md thresholdSq dfNear = some [pinNear] ∧
      write_map_md thresholdSq dfFar = some [pinFarA, pinFarB] := by
  refine ⟨?_, by decide, by decide⟩
  intro df pts hpts hge
  have hlen : pts.length = df.length := mapOpt_length _ hpts
  have hguard : ∀ c ∈ clustersOf thresholdSq pts,
      ((mkPin df c).label.length != 0) = true := by
    intro c hc
    obtain ⟨hne, hbound⟩ := clustersOf_inv thresholdSq pts c hc
    obtain ⟨i, hi⟩ := List.exists_mem_of_ne_nil c hne
    have hilt : i < df.length := hlen ▸ hbound i hi
    have hmem := clusterMembers_ne_nil hi hilt
    have hpos := pinMsg_length_pos hmem
    simpa [mkPin, bne_iff_ne] using hpos
  refine ⟨?_, ?_⟩
  · unfold write_map_md
    rw [hpts]
    dsimp only
    rw [if_neg (by omega)]
    congr 1
    exact filterMap_if_map (mkPin df)
      (fun c => (mkPin df c).label.length != 0) hguard
  · intro c hc
    exact ⟨rfl, rfl⟩

theorem C8_witness :
    (mapOpt Repeater.coordinates dfNear = some ptsNear ∧
        2 ≤ ptsNear.length) ∧
      write_map_md thresholdSq dfNear =
        some ((clustersOf thresholdSq ptsNear).map (mkPin dfNear)) :=
  ⟨⟨by decide, by decide⟩,
    (C8_cluster_pins.1 dfNear ptsNear (by decide) (by decide)).1⟩

theorem lookup_append_of_none {l1 l2 : List (String × PyVal)} {k : String}
    (h : l1.lookup k = none) : (l1 ++ l2).lookup k = l2.lookup k := by
  induction l1 with
  | nil => rfl
  | cons e es ih =>
      obtain ⟨k1, v1⟩ := e
      simp only [List.lookup, List.cons_append] at h ⊢
      cases hk : k == k1 with
      | true => rw [hk] at h; exact Option.noConfusion h
      | false => rw [hk] at h; exact ih h

theorem lookup_of_lookup_left {l1 l2 : List (String × PyVal)} {k : String}
    {v : PyVal} (h : l1.lookup k = some v) :
    (l1 ++ l2).lookup k = some v := by
  induction l1 with
  | nil => cases h
  | cons e es ih =>
      obtain ⟨k1, v1⟩ := e
      simp only [List.lookup, List.cons_append] at h ⊢
      cases hk : k == k1 with
      | true => rw [hk] at h; exact h
      | false => rw [hk] at h; exact ih h

theorem lookup_map_override {d1 : List (String × PyVal)}
    (d2 : List (String × PyVal)) {k : String} {w : PyVal}
    (h : d1.lookup k = some w) :
    (d1.map (fun e => (e.1, (d2.lookup e.1).getD e.2))).lookup k =
      some ((d2.lookup k).getD w) := by
  induction d1 with
  | nil => cases h
  | cons e es ih =>
      obtain ⟨k1, v1⟩ := e
      simp only [List.lookup, List.map] at h ⊢
      cases hk : k == k1 with
      | true =>
          rw [hk] at h
          have h2 : some v1 = some w := h
          injection h2 with h2
          subst h2
          have hkk : k = k1 := eq_of_beq hk
          subst hkk
          rfl
      | false => rw [hk] at h; exact ih h

theorem lookup_map_none {d1 : List (String × PyVal)}
    (d2 : List (String × PyVal)) {k : String} (h : d1.lookup k = none) :
    (d1.map (fun e => (e.1, (d2.lookup e.1).getD e.2))).lookup k = none := by
  induction d1 with
  | nil => rfl
  | cons e es ih =>
      obtain ⟨k1, v1⟩ := e
      simp only [List.lookup, List.map] at h ⊢
      cases hk : k == k1 with
      | true => rw [hk] at h; exact Option.noConfusion h
      | false => rw [hk] at h; exact ih h

theorem lookup_filterKeys {d : List (String × PyVal)} {q : String → Bool}
    {k : String} {v : PyVal} (hq : q k = true) (h : d.lookup k = some v) :
    (d.filter (fun e => q e.1)).lookup k = some v := by
  induction d with
  | nil => cases h
  | cons e es ih =>
      obtain ⟨k1, v1⟩ := e
      simp only [List.lookup] at h
      cases hk : k == k1 with
      | true =>
          rw [hk] at h
          have h2 : some v1 = some v := h
          injection h2 with h2
          subst h2
          have hkk : k = k1 := eq_of_beq hk
          have hq1 : q k1 = true := hkk ▸ hq
          simp [List.filter_cons, hq1, List.lookup, hk]
      | false =>
          rw [hk] at h
          have h2 : List.lookup k es = some v := h
          by_cases hq1 : q k1 = true
          · simp [List.filter_cons, hq1, List.lookup, hk, ih h2]
          · have hq2 : q k1 = false := Bool.eq_false_iff.mpr hq1
            simp [List.filter_cons, hq2, ih h2]

theorem lookup_filter_truthy {l : List (String × PyVal)} {k : String}
    {v : PyVal}
    (h : (l.filter (fun e => pyTruthy e.2)).lookup k = some v) :
    pyTruthy v = true := by
  induction l with
  | nil => cases h
  | cons e es ih =>
      obtain ⟨k1, v1⟩ := e
      by_cases hp : pyTruthy v1 = true
      · simp only [List.filter_cons, hp] at h
        simp only [if_true] at h
        simp only [List.lookup] at h
        cases hk : k == k1 with
        | true =>
            rw [hk] at h
            have h2 : some v1 = some v := h
            injection h2 with h2
            subst h2
            exact hp
        | false => rw [hk] at h; exact ih h
      · have hp2 : pyTruthy v1 = false := Bool.eq_false_iff.mpr hp
        simp only [List.filter_cons, hp2] at h
        simp only [Bool.false_eq_true, if_false] at h
        exact ih h

/-- C9 counterexample: the looked-up candidate record is not
emptiness-filtered — a page without an uplink tone stores the empty
string under "Tone (Hz)", and the merge keeps it when the user supplied
no tone, so the merged mapping holds an empty (falsy) placeholder
instead of omitting the key. -/
theorem C9_counterexample :
    (pyMerge rbW (repeater_from_args
        ⟨none, none, none, none, none, none, "FM", none, none, none,
          none⟩)).lookup "Tone (Hz)" = some (PyVal.str "") ∧
      pyTruthy (PyVal.str "") = false :=
  ⟨by decide, by decide⟩

/-- C9 amended: only the user-argument candidate dict drops its falsy
fields (every stored value is truthy); the double-splat merge is
right-biased — any key present in the user dict keeps the user value. -/
theorem C9_amended_merge :
    (∀ (a : Args) (k : String) (v : PyVal),
      (repeater_from_args a).lookup k = some v → pyTruthy v = true) ∧
    (∀ (d1 d2 : List (String × PyVal)) (k : String) (v : PyVal),
      d2.lookup k = some v → (pyMerge d1 d2).lookup k = some v) := by
  constructor
  · intro a k v h
    exact lookup_filter_truthy h
  · intro d1 d2 k v h
    unfold pyMerge
    cases h1 : d1.lookup k with
    | some w =>
        have h2 := lookup_map_override d2 h1
        rw [h] at h2
        simpa using @lookup_of_lookup_left _
          (d2.filter (fun e => (List.lookup e.1 d1).isNone)) _ _ h2
    | none =>
        rw [lookup_append_of_none (lookup_map_none d2 h1)]
        have hq : (fun s => (List.lookup s d1).isNone) k = true := by
          simp only [h1, Option.isNone_none]
        exact @lookup_filterKeys d2 (fun s => (List.lookup s d1).isNone) k v hq h

theorem C9_witness :
    ((repeater_from_args argsW).lookup "Callsign" =
          some (PyVal.str "K7LED") ∧
        pyTruthy (PyVal.str "K7LED") = true) ∧
      (pyMerge rbW (repeater_from_args argsW)).lookup "Callsign" =
        some (PyVal.str "K7LED") :=
  ⟨⟨by decide,
      C9_amended_merge.1 argsW "Callsign" (PyVal.str "K7LED") (by decide)⟩,
    C9_amended_merge.2 rbW (repeater_from_args argsW) "Callsign"
      (PyVal.str "K7LED") (by decide)⟩
